import Mathlib

/-!
Verification of the dflow dataflow engine (src/dflow.ts) against its
natural-language specification.

The embedding works on `Str := List Char` (JavaScript strings), models
JavaScript `Map` objects as insertion-ordered association lists (`JsMap`),
and translates each method of the `Dflow` class into a pure Lean function.
Recursion that is unbounded in JavaScript (the run loop descending into
sub-graphs, the level computation) is indexed by an explicit fuel
parameter; fuel exhaustion is reported as a distinguished outcome and is
how divergence of the source is made observable.

Source references are given as `dflow.ts:<line>` in the doc comments.
-/

namespace Dflow

/-- JavaScript strings are modelled as lists of characters. -/
abbrev Str := List Char

/-! ## JsMap: insertion-ordered maps, modelling JavaScript `Map`

A JavaScript `Map` iterates its entries in insertion order; `set` on an
existing key updates the value in place (keeping the entry's position),
otherwise it appends the new entry. `delete` removes the entry and keeps
the order of the others. -/

/-- An insertion-ordered association list modelling a JavaScript `Map`. -/
abbrev JsMap (K V : Type) := List (K × V)

/-- Model of `Map.prototype.get`: the value at the first matching key. -/
def jget [DecidableEq K] (m : JsMap K V) (k : K) : Option V :=
  (m.find? (fun kv => decide (kv.1 = k))).map (fun kv => kv.2)

/-- Model of `Map.prototype.has`. -/
def jhas [DecidableEq K] (m : JsMap K V) (k : K) : Bool :=
  (jget m k).isSome

/-- Model of `Map.prototype.set`: update the first matching entry in
place, or append a fresh entry at the end. -/
def jset [DecidableEq K] : JsMap K V → K → V → JsMap K V
  | [], k, v => [(k, v)]
  | (k', v') :: rest, k, v =>
    if k' = k then (k, v) :: rest else (k', v') :: jset rest k v

/-- Model of `Map.prototype.delete`: drop the first matching entry. -/
def jdel [DecidableEq K] : JsMap K V → K → JsMap K V
  | [], _ => []
  | (k', v') :: rest, k =>
    if k' = k then rest else (k', v') :: jdel rest k

theorem jget_nil [DecidableEq K] (k : K) : jget ([] : JsMap K V) k = none := rfl

theorem jget_cons [DecidableEq K] (k' : K) (v' : V) (rest : JsMap K V) (k : K) :
    jget ((k', v') :: rest) k = if k' = k then some v' else jget rest k := by
  by_cases h : k' = k <;> simp [jget, List.find?, h]

theorem jget_jset_self [DecidableEq K] (m : JsMap K V) (k : K) (v : V) :
    jget (jset m k v) k = some v := by
  induction m with
  | nil => simp [jset, jget_cons]
  | cons kv rest ih =>
    obtain ⟨k1, v1⟩ := kv
    by_cases h : k1 = k
    · simp [jset, h, jget_cons]
    · simp only [jset, h, if_false]
      rw [jget_cons]
      simp [h, ih]

theorem jget_jset_ne [DecidableEq K] (m : JsMap K V) (k k' : K) (v : V)
    (h : k' ≠ k) : jget (jset m k v) k' = jget m k' := by
  induction m with
  | nil => simp [jset, jget_cons, Ne.symm h]
  | cons kv rest ih =>
    obtain ⟨k1, v1⟩ := kv
    by_cases hk : k1 = k
    · subst hk
      simp [jset, jget_cons, Ne.symm h]
    · simp only [jset, hk, if_false]
      rw [jget_cons, jget_cons, ih]

/-! ## Identifiers and pins (dflow.ts:14-42, 588-592, 667-693)

A `Dflow.Pin` is either a bare node id (a string) or a pair of a node id
and a pin position; a `Dflow.PinId` is its canonical string form. -/

/-- A pin (dflow.ts:28): a bare `NodeId` or a `(nodeId, position)` pair.
Positions produced by the engine are natural numbers. -/
inductive Pin : Type where
  | node (id : Str)
  | port (id : Str) (position : Nat)
deriving DecidableEq, Repr

/-- A pin id (dflow.ts:34): the canonical string form of a pin. -/
abbrev PinId := Str

/-- A pipe (dflow.ts:37-40): a connection from an output pin to an input
pin.  The field `fromPin` renders the source field `from` (a reserved
word in Lean). -/
structure PipeV : Type where
  fromPin : Pin
  toPin : Pin
deriving DecidableEq, Repr

/-- The character the decimal digit `d` prints as (JavaScript number to
string conversion produces the characters U+0030..U+0039). -/
def digitChar (d : Nat) : Char := Char.ofNat (48 + d)

/-- Decimal rendering of a natural number, fuel-indexed so that it is a
structural recursion; `fuel` bounds the number of digits. -/
def natToStrAux : Nat → Nat → Str
  | 0, _ => []
  | fuel + 1, n =>
    if n < 10 then [digitChar n]
    else natToStrAux fuel (n / 10) ++ [digitChar (n % 10)]

/-- Decimal rendering of a natural number, as JavaScript `String(n)`
produces for a non-negative integer. -/
def natToStr (n : Nat) : Str := natToStrAux (n + 1) n

/-- Whether a character is a decimal digit. -/
def isDigitB (c : Char) : Bool := 48 ≤ c.toNat && c.toNat ≤ 57

/-- Accumulating decimal parser over digit characters; `none` when a
non-digit is met. -/
def strToNatAux : Nat → Str → Option Nat
  | acc, [] => some acc
  | acc, c :: rest =>
    if isDigitB c then strToNatAux (acc * 10 + (c.toNat - 48)) rest else none

/-- Model of JavaScript `Number(s)` restricted to the strings the engine
actually parses with it (canonical pin positions, which are pure decimal
digit runs): the empty string converts to `0`, a digit run to its value,
and anything else to NaN (`none`). -/
def jsNumberNat (s : Str) : Option Nat :=
  if s = [] then some 0 else strToNatAux 0 s

/-- Model of `String.prototype.split(",")`: split into the (non-empty
list of) comma-free chunks; `"".split(",")` is `[""]`. -/
def splitOnComma : Str → List Str
  | [] => [[]]
  | c :: rest =>
    if c = ',' then [] :: splitOnComma rest
    else
      match splitOnComma rest with
      | [] => [[c]]
      | s :: ss => (c :: s) :: ss

/-- `Dflow.nodeIdOfPin` (dflow.ts:667-669): the node id half of a pin. -/
def nodeIdOfPin : Pin → Str
  | .node s => s
  | .port s _ => s

/-- `Dflow.pinToPinId` (dflow.ts:687-693): a bare id stays itself, a pair
with position `0` collapses to the bare id, any other pair is joined with
a comma (`Array.prototype.join` with the default separator). -/
def pinToPinId : Pin → PinId
  | .node s => s
  | .port s position => if position = 0 then s else s ++ ',' :: natToStr position

/-- `Dflow.pinIdToPin` (dflow.ts:588-592): split on the comma, convert
the second chunk with `Number`; a missing or `NaN` or `0` position (all
falsy) collapses to the bare node id. -/
def pinIdToPin (id : PinId) : Pin :=
  let parts := splitOnComma id
  let nodeId := parts.headD []
  match parts.get? 1 with
  | none => .node nodeId
  | some positionStr =>
    match jsNumberNat positionStr with
    | none => .node nodeId
    | some 0 => .node nodeId
    | some (p + 1) => .port nodeId (p + 1)

/-- `Dflow.nodeIdsOfPipe` (dflow.ts:671-676). -/
def nodeIdsOfPipe (p : PipeV) : List Str :=
  [nodeIdOfPin p.fromPin, nodeIdOfPin p.toPin]

/-- `Dflow.parentNodeIds` (dflow.ts:678-685): sources of the pipes that
target the given node. -/
def parentNodeIds (nodeId : Str) (pipes : List PipeV) : List Str :=
  (pipes.filter (fun p => decide (nodeIdOfPin p.toPin = nodeId))).map
    (fun p => nodeIdOfPin p.fromPin)

/-- Canonicalization of a pin, as the specification defines it for the
round-trip property (spec §8.1): a pair with position `0` is the bare
node id, every other pin is left alone.  This definition follows the
specification's words, to be compared with the source functions. -/
def canonicalize : Pin → Pin
  | .port s 0 => .node s
  | p => p

theorem digitChar_isDigit : ∀ d, d < 10 → isDigitB (digitChar d) = true := by decide

theorem digitChar_val : ∀ d, d < 10 → (digitChar d).toNat - 48 = d := by decide

theorem digitChar_ne_comma : ∀ d, d < 10 → digitChar d ≠ ',' := by decide

theorem natToStrAux_digits (fuel : Nat) :
    ∀ n, n < fuel → ∀ c ∈ natToStrAux fuel n, isDigitB c = true := by
  induction fuel with
  | zero => intro n hn; omega
  | succ fuel ih =>
    intro n hn c hc
    rw [natToStrAux] at hc
    by_cases h10 : n < 10
    · simp [h10] at hc
      subst hc
      exact digitChar_isDigit n h10
    · simp [h10] at hc
      rcases hc with hc | hc
      · have hq : n / 10 < fuel := by
          have hlt : n / 10 < n := Nat.div_lt_self (by omega) (by omega)
          omega
        exact ih (n / 10) hq c hc
      · subst hc
        exact digitChar_isDigit (n % 10) (Nat.mod_lt _ (by omega))

theorem natToStrAux_ne_nil (fuel n : Nat) (h : n < fuel) :
    natToStrAux fuel n ≠ [] := by
  cases fuel with
  | zero => omega
  | succ fuel =>
    rw [natToStrAux]
    by_cases h10 : n < 10 <;> simp [h10]

theorem strToNatAux_natToStrAux (fuel : Nat) :
    ∀ n, n < fuel → ∀ acc t,
      strToNatAux acc (natToStrAux fuel n ++ t) =
        strToNatAux (acc * 10 ^ (natToStrAux fuel n).length + n) t := by
  induction fuel with
  | zero => intro n hn; omega
  | succ fuel ih =>
    intro n hn acc t
    rw [natToStrAux]
    by_cases h10 : n < 10
    · have hd := digitChar_isDigit n h10
      have hv := digitChar_val n h10
      simp [h10, strToNatAux, hd, hv]
    · have hq : n / 10 < fuel := by
        have hlt : n / 10 < n := Nat.div_lt_self (by omega) (by omega)
        omega
      have hr : n % 10 < 10 := Nat.mod_lt _ (by omega)
      have hd := digitChar_isDigit (n % 10) hr
      have hv := digitChar_val (n % 10) hr
      simp only [h10, if_false, List.append_assoc, List.singleton_append]
      rw [ih (n / 10) hq acc (digitChar (n % 10) :: t)]
      rw [strToNatAux, if_pos hd, hv]
      congr 1
      simp only [List.length_append, List.length_singleton, pow_succ, ← mul_assoc]
      generalize acc * 10 ^ (natToStrAux fuel (n / 10)).length = A
      omega

/-- The decimal rendering of `n` parses back to `n` with `Number`. -/
theorem jsNumberNat_natToStr (n : Nat) : jsNumberNat (natToStr n) = some n := by
  have hne := natToStrAux_ne_nil (n + 1) n (by omega)
  have h := strToNatAux_natToStrAux (n + 1) n (by omega) 0 []
  rw [List.append_nil] at h
  rw [jsNumberNat, natToStr, if_neg hne, h]
  simp [strToNatAux]

/-- The decimal rendering of a natural number never contains a comma. -/
theorem comma_not_mem_natToStr (n : Nat) : ',' ∉ natToStr n := by
  intro hmem
  have := natToStrAux_digits (n + 1) n (by omega) ',' hmem
  simp [isDigitB] at this

theorem splitOnComma_no_comma (s : Str) (h : ',' ∉ s) : splitOnComma s = [s] := by
  induction s with
  | nil => rfl
  | cons c rest ih =>
    have hc : c ≠ ',' := fun hc => h (hc ▸ List.mem_cons_self c rest)
    have hr : ',' ∉ rest := fun hr => h (List.mem_cons_of_mem c hr)
    rw [splitOnComma, if_neg hc, ih hr]

theorem splitOnComma_append (s t : Str) (h : ',' ∉ s) :
    splitOnComma (s ++ ',' :: t) = s :: splitOnComma t := by
  induction s with
  | nil => simp [splitOnComma]
  | cons c rest ih =>
    have hc : c ≠ ',' := fun hc => h (hc ▸ List.mem_cons_self c rest)
    have hr : ',' ∉ rest := fun hr => h (List.mem_cons_of_mem c hr)
    rw [List.cons_append, splitOnComma, if_neg hc, ih hr]

/-- Claim C10: for every `Pin p` whose node id is a non-empty comma-free
string and whose position (when present) is a natural number,
`pinIdToPin (pinToPinId p)` equals `canonicalize p`, where
`canonicalize` collapses a pair with position `0` to the bare node id
and is the identity otherwise. -/
theorem C10_pin_round_trip (p : Pin)
    (hne : nodeIdOfPin p ≠ []) (hc : ',' ∉ nodeIdOfPin p) :
    pinIdToPin (pinToPinId p) = canonicalize p := by
  cases p with
  | node s =>
    simp only [nodeIdOfPin] at hne hc
    rw [pinToPinId, pinIdToPin, splitOnComma_no_comma s hc]
    rfl
  | port s position =>
    simp only [nodeIdOfPin] at hne hc
    cases position with
    | zero =>
      rw [pinToPinId, if_pos rfl, pinIdToPin, splitOnComma_no_comma s hc]
      rfl
    | succ q =>
      rw [pinToPinId, if_neg (by omega), pinIdToPin,
        splitOnComma_append s (natToStr (q + 1)) hc,
        splitOnComma_no_comma (natToStr (q + 1)) (comma_not_mem_natToStr (q + 1))]
      simp [jsNumberNat_natToStr, canonicalize]

/-- Witness for C10 at the concrete pin `(['n'], 2)`. -/
theorem C10_pin_round_trip_witness :
    pinIdToPin (pinToPinId (Pin.port ['n'] 2)) = canonicalize (Pin.port ['n'] 2) :=
  C10_pin_round_trip (Pin.port ['n'] 2) (by decide) (by decide)

/-! ## The sort used by the `nodes` getter (dflow.ts:226-236)

The getter sorts the node entries with the comparator
`levelOfNode[idA] <= levelOfNode[idB] ? -1 : 1`, which never returns `0`
and is inconsistent on equal levels (it answers `-1` both ways).  Per
ECMAScript, `Array.prototype.sort` with an inconsistent comparator has an
implementation-defined order.  We model what V8 — the engine the
repository's own `node:test` suite runs on — does for the short arrays at
hand: elements are inserted one by one, each placed before the first
element `e` with `comparator(pivot, e) < 0`, i.e. before the first `e`
whose key is greater than or equal to the pivot's.  (V8's Torque sort
uses exactly this binary-insertion placement for arrays below its run
threshold, and its descending-run detection agrees with it.)  With this
comparator that places each element before all earlier elements of equal
key, so equal-key ties come out in reverse insertion order. -/

/-- Insert `p` before the first element whose key is `≥ f p` in an
accumulated list; this is where V8's sort places a pivot under the
comparator of dflow.ts:233-235. -/
def insertByKey (f : α → Nat) (p : α) : List α → List α
  | [] => [p]
  | e :: rest => if f p ≤ f e then p :: e :: rest else e :: insertByKey f p rest

/-- The modelled result of `Array.prototype.sort` with the comparator of
dflow.ts:233-235: left-to-right insertion of every element. -/
def sortJS (f : α → Nat) (l : List α) : List α :=
  l.foldl (fun acc p => insertByKey f p acc) []

theorem insertByKey_perm (f : α → Nat) (p : α) (l : List α) :
    List.Perm (insertByKey f p l) (p :: l) := by
  induction l with
  | nil => rfl
  | cons e rest ih =>
    rw [insertByKey]
    by_cases h : f p ≤ f e
    · rw [if_pos h]
    · rw [if_neg h]
      exact (ih.cons e).trans (List.Perm.swap p e rest)

theorem sortJS_foldl_perm (f : α → Nat) (l : List α) :
    ∀ acc, List.Perm (l.foldl (fun acc p => insertByKey f p acc) acc) (acc ++ l) := by
  induction l with
  | nil => intro acc; simp
  | cons p rest ih =>
    intro acc
    exact (ih (insertByKey f p acc)).trans
      (((insertByKey_perm f p acc).append_right rest).trans List.perm_middle.symm)

/-- The modelled sort permutes its input. -/
theorem sortJS_perm (f : α → Nat) (l : List α) : List.Perm (sortJS f l) l := by
  have h := sortJS_foldl_perm f l []
  simpa [sortJS] using h

theorem insertByKey_pairwise (f : α → Nat) (p : α) (l : List α)
    (h : l.Pairwise (fun a b => f a ≤ f b)) :
    (insertByKey f p l).Pairwise (fun a b => f a ≤ f b) := by
  induction l with
  | nil => simp [insertByKey]
  | cons e rest ih =>
    rw [List.pairwise_cons] at h
    rw [insertByKey]
    by_cases hle : f p ≤ f e
    · rw [if_pos hle]
      refine List.Pairwise.cons ?_ (List.Pairwise.cons h.1 h.2)
      intro b hb
      rcases List.mem_cons.mp hb with hb | hb
      · exact hb ▸ hle
      · exact le_trans hle (h.1 b hb)
    · rw [if_neg hle]
      refine List.Pairwise.cons ?_ (ih h.2)
      intro b hb
      have hb' := (insertByKey_perm f p rest).mem_iff.mp hb
      rcases List.mem_cons.mp hb' with hb' | hb'
      · exact hb' ▸ le_of_lt (lt_of_not_le hle)
      · exact h.1 b hb'

/-- The modelled sort is weakly ascending in the key. -/
theorem sortJS_pairwise (f : α → Nat) (l : List α) :
    (sortJS f l).Pairwise (fun a b => f a ≤ f b) := by
  have haux : ∀ (l acc : List α), acc.Pairwise (fun a b => f a ≤ f b) →
      (l.foldl (fun acc p => insertByKey f p acc) acc).Pairwise
        (fun a b => f a ≤ f b) := by
    intro l
    induction l with
    | nil => intro acc h; exact h
    | cons p rest ih =>
      intro acc h
      exact ih (insertByKey f p acc) (insertByKey_pairwise f p acc h)
  exact haux l [] (by simp)

theorem insertByKey_filter (f : α → Nat) (c : Nat) (p : α) (l : List α) :
    (insertByKey f p l).filter (fun a => decide (f a = c)) =
      if f p = c then p :: l.filter (fun a => decide (f a = c))
      else l.filter (fun a => decide (f a = c)) := by
  induction l with
  | nil =>
    by_cases hp : f p = c <;> simp [insertByKey, List.filter, hp]
  | cons e rest ih =>
    rw [insertByKey]
    by_cases hle : f p ≤ f e
    · rw [if_pos hle]
      by_cases hp : f p = c <;> simp [List.filter, hp]
    · rw [if_neg hle]
      by_cases hp : f p = c
      · have hec : ¬ f e = c := by omega
        simp [List.filter, hp, hec, ih]
      · by_cases hec : f e = c <;> simp [List.filter, hp, hec, ih]

/-- In the modelled sort, the elements of any fixed key come out in
reverse input order. -/
theorem sortJS_filter_reverse (f : α → Nat) (c : Nat) (l : List α) :
    (sortJS f l).filter (fun a => decide (f a = c)) =
      (l.filter (fun a => decide (f a = c))).reverse := by
  have haux : ∀ (l acc : List α),
      (l.foldl (fun acc p => insertByKey f p acc) acc).filter
          (fun a => decide (f a = c)) =
        (l.filter (fun a => decide (f a = c))).reverse ++
          acc.filter (fun a => decide (f a = c)) := by
    intro l
    induction l with
    | nil => intro acc; simp
    | cons p rest ih =>
      intro acc
      have h1 : ((p :: rest).foldl (fun acc p => insertByKey f p acc) acc) =
          rest.foldl (fun acc p => insertByKey f p acc) (insertByKey f p acc) := rfl
      rw [h1, ih (insertByKey f p acc), insertByKey_filter]
      by_cases hp : f p = c <;> simp [List.filter, hp]
  have h := haux l []
  simpa [sortJS] using h

/-! ## Values, callables, errors, and the engine state (dflow.ts:76-221)

Output-cache and context values are opaque to the engine; we model them
with a small sum that carries the JavaScript `undefined` (needed because
`argValues` substitutes it for missing inputs) and integers for the
numeric scenarios.  A callable is modelled by its factory variant
(constructor identity, dflow.ts:566-574), its declared arity
(`Function.prototype.length`), and its behaviour as a pure function of
the receiver and the argument tuple. -/

/-- An opaque JavaScript value: `undefined`, a number (taken integral),
or a reference to some object (index `n`), which is always truthy. -/
inductive Value : Type where
  | undef
  | num (n : Int)
  | obj (n : Nat)
deriving DecidableEq, Repr

/-- JavaScript truthiness on `Value` (`undefined` and `0` are falsy). -/
def isTruthy : Value → Bool
  | .undef => false
  | .num n => decide (n ≠ 0)
  | .obj _ => true

/-- The four factory variants of dflow.ts:566-574, identified at dispatch
time by constructor identity (dflow.ts:634-652). -/
inductive FuncKind : Type where
  | plain
  | async
  | generator
  | asyncGenerator
deriving DecidableEq, Repr

/-- A bound callable: its variant, its declared arity, and its behaviour
(receiver and positional arguments to result).  The behaviour of a
callable compiled from user text is external to the core (spec §1, §6.1)
and enters the model as an uninterpreted function. -/
structure FuncV : Type where
  kind : FuncKind
  arity : Nat
  impl : Value → List Value → Value

/-- `Dflow.Code` (dflow.ts:51): one string of code or a list of lines. -/
inductive DCode : Type where
  | str (s : Str)
  | list (l : List Str)
deriving DecidableEq, Repr

/-- A node of a serialized graph (dflow.ts:22-25). -/
structure NodeV : Type where
  id : Str
  name : Str
deriving DecidableEq, Repr

/-- A sub-graph template, `Dflow.NodeGraph` (dflow.ts:63-67). -/
structure NodeGraphT : Type where
  name : Str
  args : Option (List Str)
  outs : Option (List Str)
  nodes : List NodeV
  pipes : List PipeV
deriving DecidableEq, Repr

/-- The error taxonomy of dflow.ts:702-808.  `nodeExecution` carries the
inner error in place of the JavaScript message string (the claims never
inspect message text).  `fuelOut` and `levelDiverged` are model
artifacts: they mark where the JavaScript would recurse without bound. -/
inductive DErr : Type where
  | brokenPipe (p : PipeV)
  | nodeNotFound (id : Str)
  | nodeOverride (name : Str)
  | nodeExecution (id : Str) (name : Str) (inner : DErr)
  | fuelOut
  | levelDiverged
deriving DecidableEq, Repr

/-- The non-recursive fields of a `Dflow` engine instance
(dflow.ts:76-221): the graph name and formal `args`/`outs`, and the
`context`, `func`, `ioNodes`, `node`, `nodeArgs`, `nodeGraph`,
`nodeOuts`, `out` and `pipe` tables. -/
structure DCore : Type where
  name : Str
  args : Option (List Str)
  outs : Option (List Str)
  context : JsMap Str Value
  func : JsMap Str FuncV
  ioNodes : List Str
  node : JsMap Str Str
  nodeArgs : JsMap Str (List Str)
  nodeGraph : JsMap Str NodeGraphT
  nodeOuts : JsMap Str (List Str)
  out : JsMap Str Value
  pipe : JsMap PinId PinId

/-- A `Dflow` engine instance: its tables plus the map of materialized
sub-graph instances (dflow.ts:141, keyed by node id). -/
inductive DflowState : Type where
  | mk (core : DCore) (graph : List (Str × DflowState))

/-- The table fields of an engine. -/
def DflowState.core : DflowState → DCore
  | .mk c _ => c

/-- The sub-graph instance map of an engine. -/
def DflowState.graph : DflowState → List (Str × DflowState)
  | .mk _ g => g

/-- Rebuild an engine with its table fields transformed. -/
def updCore (f : DCore → DCore) (s : DflowState) : DflowState :=
  .mk (f s.core) s.graph

/-- Rebuild an engine with the given sub-graph instance map. -/
def setGraphMap (s : DflowState) (g : List (Str × DflowState)) : DflowState :=
  .mk s.core g

/-- A `Dflow` instance before its constructor body runs: every table
empty (dflow.ts:113-203 field initializers). -/
def emptyDflow : DflowState :=
  .mk ⟨[], none, none, [], [], [], [], [], [], [], [], []⟩ []

/-! ## Graph store operations (dflow.ts:252-395, 490-539) -/

/-- `Dflow.isBrokenPipe` (dflow.ts:642-644): some endpoint's node id is
missing from the node map. -/
def isBrokenPipe (p : PipeV) (node : JsMap Str Str) : Bool :=
  (nodeIdsOfPipe p).any (fun nodeId => ! jhas node nodeId)

/-- `addNode` (dflow.ts:252-255): insert `(id, name)` into the node map. -/
def addNode (s : DflowState) (name id : Str) : DflowState :=
  updCore (fun c => { c with node := jset c.node id name }) s

/-- `addPipe` (dflow.ts:260-264): throw `BrokenPipe` when an endpoint is
missing, otherwise store `pinToPinId to → pinToPinId from`.  The second
component carries the thrown error; the state is returned unchanged in
that case since the source throws before mutating. -/
def addPipe (s : DflowState) (p : PipeV) : DflowState × Option DErr :=
  if isBrokenPipe p s.core.node then (s, some (.brokenPipe p))
  else
    (updCore (fun c =>
      { c with pipe := jset c.pipe (pinToPinId p.toPin) (pinToPinId p.fromPin) }) s,
     none)

/-- `delPipe` (dflow.ts:290-292). -/
def delPipe (s : DflowState) (toPin : Pin) : DflowState :=
  updCore (fun c => { c with pipe := jdel c.pipe (pinToPinId toPin) }) s

/-- The collision check `isAvailableNode` (dflow.ts:388-395) as a
predicate: the name is already an I/O marker, a callable binding, or a
sub-graph template. -/
def nameTaken (s : DflowState) (name : Str) : Bool :=
  s.core.ioNodes.contains name || jhas s.core.func name || jhas s.core.nodeGraph name

/-- Model of `Set.prototype.add` on the insertion-ordered `ioNodes`. -/
def addIoNode (l : List Str) (name : Str) : List Str :=
  if l.contains name then l else l ++ [name]

/-- `setFunc` (dflow.ts:490-499): check the name, bind the callable, and
record the argument names — the given ones if present, otherwise, when
the callable's declared arity is positive, the list the source
synthesizes with `Array.from` over a fixed length of 2, which always has
exactly the two entries `arg0`, `arg1`. -/
def setFunc (s : DflowState) (name : Str) (func : FuncV) (args : Option (List Str)) :
    DflowState × Option DErr :=
  if nameTaken s name then (s, some (.nodeOverride name))
  else
    let s1 := updCore (fun c => { c with func := jset c.func name func }) s
    match args with
    | some a =>
      (updCore (fun c => { c with nodeArgs := jset c.nodeArgs name a }) s1, none)
    | none =>
      if func.arity > 0 then
        (updCore (fun c =>
          { c with nodeArgs := (jset c.nodeArgs name
              ((List.range 2).map (fun i => ['a', 'r', 'g'] ++ natToStr i))) }) s1,
         none)
      else (s1, none)

/-- `setNodeArg` (dflow.ts:501-504). -/
def setNodeArg (s : DflowState) (name : Str) : DflowState × Option DErr :=
  if nameTaken s name then (s, some (.nodeOverride name))
  else (updCore (fun c => { c with ioNodes := addIoNode c.ioNodes name }) s, none)

/-- `setNodeOut` (dflow.ts:535-539): register an output marker, whose
single argument is named `out`. -/
def setNodeOut (s : DflowState) (name : Str) : DflowState × Option DErr :=
  if nameTaken s name then (s, some (.nodeOverride name))
  else
    (updCore (fun c =>
      { c with
        nodeArgs := jset c.nodeArgs name [['o', 'u', 't']]
        ioNodes := addIoNode c.ioNodes name }) s,
     none)

/-- `setNodeGraph` (dflow.ts:528-533). -/
def setNodeGraph (s : DflowState) (g : NodeGraphT) : DflowState × Option DErr :=
  if nameTaken s g.name then (s, some (.nodeOverride g.name))
  else
    let s1 := match g.args with
      | some a => updCore (fun c => { c with nodeArgs := jset c.nodeArgs g.name a }) s
      | none => s
    let s2 := match g.outs with
      | some o => updCore (fun c => { c with nodeOuts := jset c.nodeOuts g.name o }) s1
      | none => s1
    (updCore (fun c => { c with nodeGraph := jset c.nodeGraph g.name g }) s2, none)

/-- `Dflow.funcBody` (dflow.ts:584-586): a list of code lines is joined
with semicolons. -/
def funcBody : DCode → Str
  | .str s => s
  | .list l => List.intercalate [';'] l

/-- Substring containment, as `String.prototype.includes` behaves. -/
def strIncludes : Str → Str → Bool
  | [], pat => pat.isPrefixOf ([] : Str)
  | c :: rest, pat => pat.isPrefixOf (c :: rest) || strIncludes rest pat

/-- The dispatch of `.includes` on a `Dflow.Code` value
(dflow.ts:654-665): substring containment on a string, but
`Array.prototype.includes` — whole-element equality — on a list. -/
def codeIncludes (c : DCode) (token : Str) : Bool :=
  match c with
  | .str s => strIncludes s token
  | .list l => l.contains token

/-- `Dflow.looksLikeAsyncCode` (dflow.ts:658-661). -/
def looksLikeAsyncCode (c : DCode) : Bool :=
  codeIncludes c ['a', 'w', 'a', 'i', 't'] && ! codeIncludes c ['y', 'i', 'e', 'l', 'd']

/-- `setNodeFunc` (dflow.ts:506-526): check the name, then compile the
code with the async factory when `looksLikeAsyncCode`, the plain factory
otherwise.  With explicit `args` the async branch passes them to
`setFunc` and re-records them; the sync branch passes the compiled
callable without the `args` parameter.  The external compiler enters as
the uninterpreted `compileSem`. -/
def setNodeFunc (compileSem : List Str → Str → Value → List Value → Value)
    (s : DflowState) (name : Str) (args : Option (List Str)) (code : DCode) :
    DflowState × Option DErr :=
  if nameTaken s name then (s, some (.nodeOverride name))
  else
    if looksLikeAsyncCode code then
      match args with
      | some a =>
        let r := setFunc s name ⟨.async, a.length, compileSem a (funcBody code)⟩ (some a)
        (updCore (fun c => { c with nodeArgs := jset c.nodeArgs name a }) r.1, r.2)
      | none =>
        setFunc s name ⟨.async, 0, compileSem [] (funcBody code)⟩ none
    else
      match args with
      | some a =>
        setFunc s name ⟨.plain, a.length, compileSem a (funcBody code)⟩ none
      | none =>
        setFunc s name ⟨.plain, 0, compileSem [] (funcBody code)⟩ none

/-- `delete` (dflow.ts:324-361), acting on the state.  Pass 1 removes
the listed nodes that exist (and whose name is truthy, as the source's
`if (name)` tests).  Pass 2 collects, from the still-unmodified pipe
map, the pipes the source deems connected to deleted nodes: it applies
`Dflow.nodeIdOfPin` to the stored `PinId` strings, and on a string that
function returns its whole argument — so the comparison is between the
full pin id (including any `,position` suffix) and the deleted node ids.
Pass 3 removes the listed pipes plus the collected ones.  The returned
summary of deleted items is dropped here; no claim consults it. -/
def deleteOp (s : DflowState) (nodes : List Str) (pipes : List Pin) : DflowState :=
  let pass1 := nodes.foldl
    (fun (acc : JsMap Str Str × List Str) id =>
      match jget acc.1 id with
      | some name => if name = [] then acc else (jdel acc.1 id, acc.2 ++ [id])
      | none => acc)
    (s.core.node, [])
  let node1 := pass1.1
  let deletedNodeIds := pass1.2
  let pipesOfDeletedNodes :=
    ((s.core.pipe.filter (fun tf =>
        deletedNodeIds.contains tf.1 || deletedNodeIds.contains tf.2)).map
      (fun tf => pinIdToPin tf.1))
  let pipe1 := (pipes ++ pipesOfDeletedNodes).foldl
    (fun (pm : JsMap PinId PinId) toPin =>
      let toId := pinToPinId toPin
      match jget pm toId with
      | some source => if source = [] then pm else jdel pm toId
      | none => pm)
    s.core.pipe
  updCore (fun c => { c with node := node1, pipe := pipe1 }) s

/-- `delNode` (dflow.ts:283-285): delegate to `delete` with the one
node and no pipes. -/
def delNode (s : DflowState) (nodeId : Str) : DflowState :=
  deleteOp s [nodeId] []

/-- `insert` (dflow.ts:379-382): all nodes, then all pipes; a broken
pipe throws and aborts the remaining insertions. -/
def insert (s : DflowState) (nodes : List NodeV) (pipes : List PipeV) :
    Except DErr DflowState :=
  let s1 := nodes.foldl (fun acc n => addNode acc n.name n.id) s
  pipes.foldlM (fun acc p =>
    match addPipe acc p with
    | (_, some e) => .error e
    | (s', none) => .ok s') s1

/-- `inherit` (dflow.ts:368-377), run on the child with the parent as
argument: for every callable of the parent, in table order, skip the
names that are I/O markers of the child, otherwise copy the argument
names (when present), the context (when truthy), and the callable into
the child's own tables. -/
def inherit (child parent : DflowState) : DflowState :=
  parent.core.func.foldl
    (fun ch entry =>
      let funcName := entry.1
      if ch.core.ioNodes.contains funcName then ch
      else
        let ch1 := match jget parent.core.nodeArgs funcName with
          | some a => updCore (fun c => { c with nodeArgs := jset c.nodeArgs funcName a }) ch
          | none => ch
        let ch2 := match jget parent.core.context funcName with
          | some v =>
            if isTruthy v then
              updCore (fun c => { c with context := jset c.context funcName v }) ch1
            else ch1
          | none => ch1
        updCore (fun c => { c with func := jset c.func funcName entry.2 }) ch2)
    child

/-- The constructor `new Dflow(nodeGraph)` (dflow.ts:205-221): set the
name, register every formal argument and output as an I/O marker (these
calls can throw `NodeOverride` on duplicate names), record the `args`
and `outs` fields, and insert the nodes and pipes. -/
def mkDflow (g : NodeGraphT) : Except DErr DflowState := do
  let s0 := updCore (fun c => { c with name := g.name }) emptyDflow
  let s1 ← match g.args with
    | some a => a.foldlM (fun acc arg =>
        match setNodeArg acc arg with
        | (_, some e) => .error e
        | (s', none) => .ok s') s0
    | none => pure s0
  let s1 := updCore (fun c => { c with args := g.args }) s1
  let s2 ← match g.outs with
    | some o => o.foldlM (fun acc nm =>
        match setNodeOut acc nm with
        | (_, some e) => .error e
        | (s', none) => .ok s') s1
    | none => pure s1
  let s2 := updCore (fun c => { c with outs := g.outs }) s2
  insert s2 g.nodes g.pipes

/-- `createGraph` (dflow.ts:269-278): nothing without a template or when
an instance already exists for the node id; otherwise construct a fresh
engine from the template, let it inherit from this one, and store it
under the node id. -/
def createGraph (s : DflowState) (nodeId : Str) (tmpl : Option NodeGraphT) :
    Except DErr DflowState :=
  match tmpl with
  | none => .ok s
  | some g =>
    if (jget s.graph nodeId).isSome then .ok s
    else do
      let child ← mkDflow g
      let child := inherit child s
      .ok (setGraphMap s (jset s.graph nodeId child))

/-! ## Topological levels and the `nodes` getter (dflow.ts:226-236, 614-632) -/

/-- `Dflow.levelOfNode` (dflow.ts:614-632), fuel-indexed: level `0`
without parents, otherwise one more than the maximum parent level.  The
source recursion carries no cycle detection (its own TODO comment notes
the missing `Infinity` case), so on a cyclic pipe list it never
terminates; the fuel makes that observable as `none` for every budget. -/
def levelOfNode : Nat → Str → List PipeV → Option Nat
  | 0, _, _ => none
  | fuel + 1, nodeId, pipes =>
    match parentNodeIds nodeId pipes with
    | [] => some 0
    | parents =>
      (parents.foldl
        (fun acc parentNodeId =>
          match acc, levelOfNode fuel parentNodeId pipes with
          | some maxLevel, some l => some (max l maxLevel)
          | _, _ => none)
        (some 0)).map (fun maxLevel => maxLevel + 1)

/-- The pipe list the `nodes` getter rebuilds from the pipe map
(dflow.ts:227, via `Dflow.pipeIdToPipe`). -/
def pipesOfState (s : DflowState) : List PipeV :=
  s.core.pipe.map (fun tf => ⟨pinIdToPin tf.2, pinIdToPin tf.1⟩)

/-- The sort key of the `nodes` getter: the computed level of the entry's
node id (total by defaulting, used only under the totality guard). -/
def lvlKey (fuel : Nat) (pipes : List PipeV) (entry : Str × Str) : Nat :=
  (levelOfNode fuel entry.1 pipes).getD 0

/-- The `nodes` getter (dflow.ts:226-236), fuel-indexed: compute every
node's level over the pipe list and sort the node entries with the
modelled `Array.prototype.sort`.  `none` when some level computation
exceeds the fuel — in the source that is the case where the recursion
never returns. -/
def nodesGetter (fuel : Nat) (s : DflowState) : Option (List (Str × Str)) :=
  let pipes := pipesOfState s
  if s.core.node.all (fun entry => (levelOfNode fuel entry.1 pipes).isSome) then
    some (sortJS (lvlKey fuel pipes) s.core.node)
  else none

/-- The fuel the embedding hands the level recursion: one more than the
number of node ids that can appear in the pipe list, which bounds the
length of any simple path; whenever the source recursion terminates at
all, this budget is enough, and it is exceeded exactly on the inputs
where the source diverges. -/
def defaultLevelFuel (s : DflowState) : Nat := 2 * s.core.pipe.length + 2

/-! ## Dispatch and the run loop (dflow.ts:297-316, 397-488) -/

/-- `argValues` (dflow.ts:297-316): look the node's name up (a missing
or empty — falsy — name throws `NodeNotFound`), then for each declared
argument position take the output cache at the inbound pipe's source, or
`undefined` without an inbound pipe (or with the falsy empty-string
source). -/
def argValues (s : DflowState) (nodeId : Str) : Except DErr (List Value) :=
  match jget s.core.node nodeId with
  | none => .error (.nodeNotFound nodeId)
  | some nodeName =>
    if nodeName = [] then .error (.nodeNotFound nodeId)
    else
      match jget s.core.nodeArgs nodeName with
      | none => .ok []
      | some argNames =>
        .ok ((List.range argNames.length).map (fun position =>
          match jget s.core.pipe (pinToPinId (.port nodeId position)) with
          | some source =>
            if source = [] then .undef
            else (jget s.core.out (pinToPinId (.node source))).getD .undef
          | none => .undef))

/-- The receiver for a dispatch (dflow.ts:483):
`context.get(nodeId) ?? context.get(nodeName)`, with absent and
`undefined` entries both falling through, and `null`/absence modelled as
`undef`. -/
def resolveContext (s : DflowState) (nodeId nodeName : Str) : Value :=
  match jget s.core.context nodeId with
  | some .undef | none => (jget s.core.context nodeName).getD .undef
  | some v => v

/-- `runFunc` (dflow.ts:406-430): nothing without a callable; otherwise
collect the argument values (whose `NodeNotFound` propagates unwrapped)
and, for the async and plain variants only, apply the callable and write
its result to the output cache at the bare node id.  The generator
variants are recognized but not executed.  The callable's own behaviour
is total in the model, so the `NodeExecution` wrap of a throwing callable
does not arise here. -/
def runFunc (s : DflowState) (nodeId : Str) (func : Option FuncV) (context : Value) :
    Except DErr DflowState :=
  match func with
  | none => .ok s
  | some f => do
    let values ← argValues s nodeId
    match f.kind with
    | .async | .plain =>
      .ok (updCore (fun c => { c with out := jset c.out nodeId (f.impl context values) }) s)
    | _ => .ok s

/-- Step 1 of `runGraph` (dflow.ts:438-447): for every nested node whose
name equals a formal argument name at some position, preload the child's
output cache at that node's positional pin with the parent-computed
argument value. -/
def injectGraphInputs (g : DflowState) (argVals : List Value) : DflowState :=
  match g.core.args with
  | none => g
  | some argNames =>
    updCore (fun c =>
      { c with out := (g.core.node.foldl
          (fun om entry =>
            (List.range argNames.length).foldl
              (fun om position =>
                if entry.2 = (argNames.get? position).getD [] then
                  jset om (pinToPinId (.port entry.1 position)) (argVals.getD position .undef)
                else om)
              om)
          c.out) }) g

/-- Step 3 of `runGraph` (dflow.ts:460-472): for every nested node whose
name equals a declared output name at some position, look up an inbound
pipe for the nested node id — in the parent's own pipe map, which is
what the source's `this.pipe.get(nodeId)` consults — and copy the
child's output cache at that source into the parent's output cache at
the positional pin of the graph node. -/
def extractGraphOutputs (s : DflowState) (graphId : Str) (g : DflowState) : DflowState :=
  match g.core.outs with
  | none => s
  | some outs =>
    g.core.node.foldl
      (fun s entry =>
        (List.range outs.length).foldl
          (fun s position =>
            if entry.2 = (outs.get? position).getD [] then
              match jget s.core.pipe entry.1 with
              | some source =>
                if source = [] then s
                else
                  updCore (fun c =>
                    { c with out := (jset c.out (pinToPinId (.port graphId position))
                        ((jget g.core.out (pinToPinId (.node source))).getD .undef)) }) s
              | none => s
            else s)
          s)
      s

/-- The `run` loop (dflow.ts:397-404) over a precomputed node order,
together with the bodies of `runNode` (dflow.ts:475-488) and `runGraph`
(dflow.ts:432-473).  For each node: materialize the sub-graph instance
from the template registered under the node's name; dispatch the
callable bound to the name; then fetch a sub-graph instance with
`graph.get(nodeName)` — the source's own lookup, although `createGraph`
stored the instance under the node id — and, if one is found, inject its
inputs, run it recursively, store the mutated child back, and extract
its outputs.  A child error is rewrapped as `NodeExecution`.  The fuel
decreases on every processed node and bounds the total work; the
JavaScript original is unbounded, and any fuel larger than the total
number of node visits gives its behaviour. -/
def runLoop : Nat → DflowState → List (Str × Str) → Except DErr DflowState
  | 0, _, _ => .error .fuelOut
  | fuel + 1, s, tasks =>
    match tasks with
    | [] => .ok s
    | (nodeId, nodeName) :: rest =>
      match createGraph s nodeId (jget s.core.nodeGraph nodeName) with
      | .error e => .error e
      | .ok s1 =>
        match runFunc s1 nodeId (jget s1.core.func nodeName)
            (resolveContext s1 nodeId nodeName) with
        | .error e => .error e
        | .ok s2 =>
          match jget s2.graph nodeName with
          | none => runLoop fuel s2 rest
          | some g =>
            match argValues s2 nodeId with
            | .error e => .error e
            | .ok argVals =>
              let g1 := injectGraphInputs g argVals
              match (match nodesGetter (defaultLevelFuel g1) g1 with
                | none => (Except.error DErr.levelDiverged : Except DErr DflowState)
                | some childTasks => runLoop fuel g1 childTasks) with
              | .error e =>
                .error (.nodeExecution nodeId ((jget s2.core.node nodeId).getD []) e)
              | .ok g2 =>
                let s3 := setGraphMap s2 (jset s2.graph nodeName g2)
                runLoop fuel (extractGraphOutputs s3 nodeId g2) rest

/-- `run` (dflow.ts:397-404): compute the sorted node list once, then
process it with `runLoop`. -/
def run (fuel : Nat) (s : DflowState) : Except DErr DflowState :=
  match nodesGetter (defaultLevelFuel s) s with
  | none => .error .levelDiverged
  | some tasks => runLoop fuel s tasks

/-! ## Concrete scenario material shared by the claims -/

/-- A trivial compiled-callable semantics for concrete scenarios; the
engine never inspects a compiled callable's behaviour in the claims that
use it. -/
def compileSem0 : List Str → Str → Value → List Value → Value := fun _ _ _ _ => .undef

def aId : Str := ['a']

def bId : Str := ['b']

def aName : Str := ['A']

def bName : Str := ['B']

/-- An engine with two nodes `a`, `b` (in that insertion order) and no
pipes: both nodes are at level `0`. -/
def sTwoNodes : DflowState := addNode (addNode emptyDflow aName aId) bName bId

/-- A single self-loop pipe on node `a`. -/
def selfLoopPipes : List PipeV := [⟨.node aId, .node aId⟩]

/-- Both endpoints of every stored pipe are present in the node map; the
invariant of spec §8.2 stated over the embedded state. -/
def wellFormedPipes (s : DflowState) : Bool :=
  s.core.pipe.all (fun tf =>
    jhas s.core.node (nodeIdOfPin (pinIdToPin tf.1)) &&
    jhas s.core.node (nodeIdOfPin (pinIdToPin tf.2)))

/-! ## Claim C1 — sub-graph output extraction (scenario S6) -/

def piName : Str := ['P']

def doubleName : Str := ['d']

def graphName : Str := ['g']

def inputName : Str := ['i']

def outputName : Str := ['o']

def nodeId1 : Str := ['1']

def nodeId2 : Str := ['2']

def subId1 : Str := ['3']

def subId2 : Str := ['4']

def subId3 : Str := ['5']

/-- The 0-ary callable of scenario S6 returning the constant π; the value
of π is abstracted as an arbitrary integer `pv`. -/
def piFunc (pv : Int) : FuncV := ⟨.plain, 0, fun _ _ => .num pv⟩

/-- The 1-ary doubling callable of scenario S6. -/
def doubleFunc : FuncV :=
  ⟨.plain, 1, fun _ args =>
    match args.headD .undef with
    | .num n => .num (2 * n)
    | _ => .undef⟩

/-- The sub-graph template of scenario S6: one formal argument `input`,
one declared output `output`, nested nodes `input → double → output`. -/
def s6Template : NodeGraphT :=
  ⟨graphName, some [inputName], some [outputName],
   [⟨subId1, inputName⟩, ⟨subId2, doubleName⟩, ⟨subId3, outputName⟩],
   [⟨.node subId1, .node subId2⟩, ⟨.node subId2, .node subId3⟩]⟩

/-- The outer engine of scenario S6, built through the engine's own
operations: bind `PI` and `double`, register the template, add the `PI`
node and the graph node, and pipe the former into the latter. -/
def s6State (pv : Int) : DflowState :=
  let s1 := (setFunc emptyDflow piName (piFunc pv) none).1
  let s2 := (setFunc s1 doubleName doubleFunc none).1
  let s3 := (setNodeGraph s2 s6Template).1
  let s4 := addNode s3 piName nodeId1
  let s5 := addNode s4 graphName nodeId2
  (addPipe s5 ⟨.node nodeId1, .node nodeId2⟩).1

/-- The state `s6State pv` written out literally (definitionally equal to
it; the proofs pass through this form so that the evaluation does not
re-reduce the construction chain). -/
def s6Lit (pv : Int) : DflowState :=
  .mk
    ⟨[], none, none, [],
     [(piName, piFunc pv), (doubleName, doubleFunc)],
     [],
     [(nodeId1, piName), (nodeId2, graphName)],
     [(doubleName, [['a', 'r', 'g', '0'], ['a', 'r', 'g', '1']]), (graphName, [inputName])],
     [(graphName, s6Template)],
     [(graphName, [outputName])],
     [],
     [(nodeId2, nodeId1)]⟩
    []

/-- Claim C1: the spec says that after the sub-graph's recursive run the
engine finds the inbound pipe to each output-marker node within the
sub-graph's own pipe map and copies the sub-graph's cached value into
the parent's output cache, so that in scenario S6 the parent's output
cache at the graph node's bare id holds twice π.  The code does not do
this: `runNode` (dflow.ts:487) fetches the instance with
`graph.get(nodeName)` although `createGraph` (dflow.ts:277) stored it
under the node id, so the recursive run is skipped, and the extraction
step (dflow.ts:466) would in any case consult the parent's pipe map with
the nested node's id.  Running S6 therefore leaves the parent's output
cache empty at `nodeId2` — the claim expects `some (.num (2 * pv))` —
while the `PI` node's own output is present. -/
theorem C1_s6_subgraph_output_missing (pv : Int) :
    (run 3 (s6State pv)).map
        (fun s => (jget s.core.out nodeId2, jget s.core.out nodeId1))
      = .ok (none, some (.num pv)) := by
  rw [show s6State pv = s6Lit pv from rfl]
  exact rfl

/-! ## Claim C2 — level computation on cycles -/

/-- Claim C2 expects `levelOfNode` to terminate on a cycle and classify
the node's level as infinite.  The source recursion (dflow.ts:614-632)
carries no cycle detection — its own TODO comment records the missing
`Infinity` case — so on the self-loop `a → a` the recursion never
returns: the fuel-indexed embedding yields `none` for every recursion
budget. -/
theorem C2_levelOfNode_cycle_diverges (fuel : Nat) :
    levelOfNode fuel aId selfLoopPipes = none := by
  induction fuel with
  | zero => rfl
  | succ n ih =>
    rw [levelOfNode]
    rw [show parentNodeIds aId selfLoopPipes = [aId] from rfl]
    simp [ih]

/-! ## Claim C3 — default argument names of `setFunc` -/

def qName : Str := ['q']

/-- A native callable of declared arity 1. -/
def arityOneFunc : FuncV := ⟨.plain, 1, fun _ _ => .undef⟩

/-- Claim C3 expects `setFunc` with omitted `args` and arity `n > 0` to
record `n` synthesized argument names.  The source (dflow.ts:497) calls
`Array.from` over a fixed length of 2, so an arity-1 callable gets the
two names `arg0`, `arg1` instead of the single name `arg0`. -/
theorem C3_setFunc_default_args_two_entries :
    jget (setFunc emptyDflow qName arityOneFunc none).1.core.nodeArgs qName
        = some [['a', 'r', 'g', '0'], ['a', 'r', 'g', '1']]
    ∧ (jget (setFunc emptyDflow qName arityOneFunc none).1.core.nodeArgs qName).map
        List.length ≠ some arityOneFunc.arity := by decide

/-! ## Claim C4 — async detection on list-valued code -/

def fName : Str := ['f']

def awaitTok : Str := ['a', 'w', 'a', 'i', 't']

def yieldTok : Str := ['y', 'i', 'e', 'l', 'd']

/-- A single line of code that awaits: `return await f()`. -/
def awaitLine : Str :=
  ['r', 'e', 't', 'u', 'r', 'n', ' ', 'a', 'w', 'a', 'i', 't', ' ', 'f', '(', ')']

/-- That line supplied as a (one-element) list of code lines. -/
def awaitListCode : DCode := .list [awaitLine]

/-- Claim C4 expects the async factory exactly when the joined code text
contains `await` and not `yield`.  For list-valued code the source tests
`Array.prototype.includes` — whole-element equality — instead of
substring containment on the joined text (dflow.ts:660; the abandoned
comment on dflow.ts:659 is the unfinished conversion to the joined
form), so the list `[return await f()]`, whose joined text contains
`await` and not `yield`, is classified as sync and bound through the
plain factory. -/
theorem C4_async_detection_ignores_list_joining :
    strIncludes (funcBody awaitListCode) awaitTok = true
    ∧ strIncludes (funcBody awaitListCode) yieldTok = false
    ∧ looksLikeAsyncCode awaitListCode = false
    ∧ (jget (setNodeFunc compileSem0 emptyDflow fName none awaitListCode).1.core.func
        fName).map FuncV.kind = some FuncKind.plain := by decide

/-! ## Claim C5 — the ordering produced by the `nodes` getter -/

/-- Counterexample to claim C5 as stated: with two nodes `a`, `b`
inserted in that order and no pipes (so both at level `0`), the getter
returns them in the order `b`, `a` — sorted with a comparator that never
answers `0`, under the modelled V8 placement — not in node-map insertion
order as the claim requires for equal levels. -/
theorem C5_equal_levels_not_insertion_order :
    nodesGetter (defaultLevelFuel sTwoNodes) sTwoNodes
        = some [(bId, bName), (aId, aName)]
    ∧ sTwoNodes.core.node = [(aId, aName), (bId, bName)]
    ∧ ([(bId, bName), (aId, aName)] : List (Str × Str)) ≠ [(aId, aName), (bId, bName)] := by
  decide

/-- Claim C5 as amended: whenever every level computation terminates
(the acyclic case), the getter returns a permutation of the node map
that is weakly ascending in level — so strictly smaller levels precede
strictly larger ones — and, within each level, lists the nodes in the
reverse of node-map insertion order (the modelled V8 behaviour; the
comparator of dflow.ts:233-235 never returns `0`, so ECMAScript leaves
the tie order implementation-defined).  The getter is a pure function of
the state and mutates nothing by construction. -/
theorem C5_nodes_order_amended (fuel : Nat) (s : DflowState) (res : List (Str × Str))
    (h : nodesGetter fuel s = some res) :
    res.Perm s.core.node
    ∧ res.Pairwise (fun a b =>
        lvlKey fuel (pipesOfState s) a ≤ lvlKey fuel (pipesOfState s) b)
    ∧ ∀ c, res.filter (fun pr => decide (lvlKey fuel (pipesOfState s) pr = c))
        = (s.core.node.filter
            (fun pr => decide (lvlKey fuel (pipesOfState s) pr = c))).reverse := by
  by_cases hall : s.core.node.all
      (fun entry => (levelOfNode fuel entry.1 (pipesOfState s)).isSome) = true
  · simp only [nodesGetter] at h
    rw [if_pos hall] at h
    have hres := Option.some.inj h
    subst hres
    exact ⟨sortJS_perm _ _, sortJS_pairwise _ _, fun c => sortJS_filter_reverse _ c _⟩
  · exfalso
    simp only [nodesGetter] at h
    rw [if_neg hall] at h
    exact Option.noConfusion h

/-- Witness for C5 at the two-node engine. -/
theorem C5_nodes_order_amended_witness :
    (([(bId, bName), (aId, aName)] : List (Str × Str))).Perm sTwoNodes.core.node :=
  (C5_nodes_order_amended (defaultLevelFuel sTwoNodes) sTwoNodes
    [(bId, bName), (aId, aName)] (by decide)).1

/-! ## Claim C6 — pipe well-formedness after deletion -/

/-- An engine with nodes `a`, `b` and the pipe `a → (b, 1)`; both of its
pipe endpoints are present. -/
def sC6 : DflowState :=
  (addPipe (addNode (addNode emptyDflow aName aId) bName bId)
    ⟨.node aId, .port bId 1⟩).1

/-- Claim C6 expects every pipe remaining after `delete` to have both
endpoints present.  Deleting node `b` from an engine with the pipe
`a → (b, 1)` leaves that pipe in the store: the collection pass
(dflow.ts:344-349) applies `nodeIdOfPin` to the stored pin-id strings,
which returns the whole string, so the key `b,1` is compared against the
deleted node id `b` and never matches.  The source's own comments
(dflow.ts:343, 350) state that broken pipes are to be deleted. -/
theorem C6_delNode_leaves_broken_pipe :
    wellFormedPipes sC6 = true
    ∧ jhas (delNode sC6 bId).core.node bId = false
    ∧ jget (delNode sC6 bId).core.pipe ['b', ',', '1'] = some aId
    ∧ wellFormedPipes (delNode sC6 bId) = false := by decide

/-! ## Claim C7 — the `addPipe` contract -/

/-- Claim C7: `addPipe` throws `BrokenPipe` carrying the pipe exactly
when an endpoint's node id is absent; in the error case the node and
pipe maps are untouched; otherwise no error is raised and the mapping
`pinToPinId to → pinToPinId from` is stored, overwriting any previous
source of that target pin and leaving every other entry (and the node
map) unchanged. -/
theorem C7_addPipe_contract (s : DflowState) (p : PipeV) :
    ((addPipe s p).2 = some (.brokenPipe p) ↔
      (jhas s.core.node (nodeIdOfPin p.fromPin) = false
       ∨ jhas s.core.node (nodeIdOfPin p.toPin) = false))
    ∧ ((addPipe s p).2.isSome → (addPipe s p).1 = s)
    ∧ ((addPipe s p).2 = none →
        (addPipe s p).1.core.node = s.core.node
        ∧ jget (addPipe s p).1.core.pipe (pinToPinId p.toPin)
            = some (pinToPinId p.fromPin)
        ∧ ∀ k, k ≠ pinToPinId p.toPin →
            jget (addPipe s p).1.core.pipe k = jget s.core.pipe k) := by
  have hbroken : isBrokenPipe p s.core.node = true ↔
      (jhas s.core.node (nodeIdOfPin p.fromPin) = false
       ∨ jhas s.core.node (nodeIdOfPin p.toPin) = false) := by
    simp [isBrokenPipe, nodeIdsOfPipe]
  by_cases hb : isBrokenPipe p s.core.node = true
  · rw [addPipe, if_pos hb]
    exact ⟨⟨fun _ => hbroken.mp hb, fun _ => rfl⟩, fun _ => rfl,
      fun hnone => Option.noConfusion hnone⟩
  · rw [addPipe, if_neg hb]
    refine ⟨⟨fun habs => Option.noConfusion habs, fun hor => absurd (hbroken.mpr hor) hb⟩,
      fun habs => ?_, fun _ => ⟨rfl, ?_, ?_⟩⟩
    · simp at habs
    · exact jget_jset_self s.core.pipe (pinToPinId p.toPin) (pinToPinId p.fromPin)
    · intro k hk
      exact jget_jset_ne s.core.pipe (pinToPinId p.toPin) k (pinToPinId p.fromPin) hk

/-- Witness for C7: scenario S4, a pipe from the missing node `m` on an
engine with an empty node map, is rejected carrying the pipe. -/
theorem C7_addPipe_contract_witness :
    (addPipe emptyDflow ⟨.node ['m'], .node aId⟩).2
      = some (.brokenPipe ⟨.node ['m'], .node aId⟩) :=
  (C7_addPipe_contract emptyDflow ⟨.node ['m'], .node aId⟩).1.mpr (by decide)

/-! ## Claim C8 — inheritance isolation -/

/-- Replacement of the three tables `inherit` copies from — the callable
table, the argument-name table, and the context map.  Any sequence of
mutations of those tables on the parent results in some such
replacement. -/
def replaceTables (s : DflowState) (f : JsMap Str FuncV) (a : JsMap Str (List Str))
    (cx : JsMap Str Value) : DflowState :=
  updCore (fun c => { c with func := f, nodeArgs := a, context := cx }) s

/-- Claim C8: a child materialized by `createGraph` is the inheritance
snapshot `inherit base p` of the parent `p` at creation time, and any
later replacement of the parent's callable, argument-name, or context
tables leaves the stored child — hence all of its bindings — unchanged.
(The source copies entry by entry into the child's own fresh maps,
dflow.ts:368-377, which the pure embedding renders as the child being a
value independent of the parent's subsequent states.) -/
theorem C8_inheritance_isolation (p : DflowState) (nodeId : Str) (tmpl : NodeGraphT)
    (base s1 : DflowState)
    (hfresh : jget p.graph nodeId = none)
    (hmk : mkDflow tmpl = .ok base)
    (hcg : createGraph p nodeId (some tmpl) = .ok s1) :
    jget s1.graph nodeId = some (inherit base p)
    ∧ ∀ f a cx, jget (replaceTables s1 f a cx).graph nodeId = some (inherit base p) := by
  have hstep : createGraph p nodeId (some tmpl)
      = .ok (setGraphMap p (jset p.graph nodeId (inherit base p))) := by
    rw [createGraph, hfresh, hmk]
    rfl
  rw [hstep] at hcg
  have hs1 := Except.ok.inj hcg
  subst hs1
  constructor
  · exact jget_jset_self p.graph nodeId (inherit base p)
  · intro f a cx
    exact jget_jset_self p.graph nodeId (inherit base p)

/-- Witness material for C8: an empty template named `t`. -/
def tmplC8 : NodeGraphT := ⟨['t'], none, none, [], []⟩

/-- The engine the constructor builds from `tmplC8`. -/
def baseC8 : DflowState :=
  match mkDflow tmplC8 with
  | .ok b => b
  | .error _ => emptyDflow

/-- The parent after materializing `tmplC8` under node id `a`. -/
def sC8 : DflowState :=
  match createGraph emptyDflow aId (some tmplC8) with
  | .ok s => s
  | .error _ => emptyDflow

/-- Witness for C8 on the empty parent and the empty template. -/
theorem C8_inheritance_isolation_witness :
    jget sC8.graph aId = some (inherit baseC8 emptyDflow) :=
  (C8_inheritance_isolation emptyDflow aId tmplC8 baseC8 sC8 rfl rfl rfl).1

/-! ## Claim C9 — name collisions raise `NodeOverride` -/

/-- Claim C9: when a name is already registered — as an I/O marker, a
callable binding, or a sub-graph template — each of `setFunc`,
`setNodeArg`, `setNodeOut`, `setNodeGraph` and `setNodeFunc` invoked
with that name reports `NodeOverride` carrying the name and leaves the
state unchanged (the source's `isAvailableNode` throws before any
mutation, dflow.ts:388-395). -/
theorem C9_node_override
    (compileSem : List Str → Str → Value → List Value → Value)
    (s : DflowState) (name : Str) (h : nameTaken s name = true) :
    (∀ func args, setFunc s name func args = (s, some (.nodeOverride name)))
    ∧ setNodeArg s name = (s, some (.nodeOverride name))
    ∧ setNodeOut s name = (s, some (.nodeOverride name))
    ∧ (∀ args outs nodes pipes,
        setNodeGraph s ⟨name, args, outs, nodes, pipes⟩ = (s, some (.nodeOverride name)))
    ∧ (∀ args code,
        setNodeFunc compileSem s name args code = (s, some (.nodeOverride name))) := by
  refine ⟨fun func args => ?_, ?_, ?_, fun args outs nodes pipes => ?_, fun args code => ?_⟩
  · rw [setFunc, if_pos h]
  · rw [setNodeArg, if_pos h]
  · rw [setNodeOut, if_pos h]
  · rw [setNodeGraph]
    exact if_pos h
  · rw [setNodeFunc.eq_def, if_pos h]

/-- An engine on which `f` is already bound through `setNodeFunc`
(scenario S5). -/
def sAfterNodeFunc : DflowState :=
  (setNodeFunc compileSem0 emptyDflow fName none (.str awaitLine)).1

/-- Witness for C9, scenario S5: `setFunc` on the name `f` already bound
by `setNodeFunc` reports `NodeOverride` carrying `f` and returns the
state unchanged. -/
theorem C9_node_override_witness :
    setFunc sAfterNodeFunc fName arityOneFunc none
      = (sAfterNodeFunc, some (.nodeOverride fName)) :=
  (C9_node_override compileSem0 sAfterNodeFunc fName (by decide)).1 arityOneFunc none

end Dflow
